import Mathlib

/-!
# Verification of the wowsims-mop contributor build

A shallow embedding, in Lean 4, of the parts of the repository that the
design document's testable properties speak about:

* the discrete-event scheduler (modelled from the spec: the scheduler's own
  code is not among the staged files; §4.1 of the design document describes
  a min-ordered pending structure keyed by `(fireTime, insertionSequence)`),
* the Destruction Warlock Chaos Bolt registration (its `ApplyEffects`,
  `ExtraCastCondition` and ignite/DoT configuration),
* the APL value node `APLValueRemainingCastTime`,
* the Electron launcher's `findAvailablePort`,
* the Windows `checkSingleInstance` guard and its non-Windows stub.

Durations are modelled as integers in the units of Go's `time.Duration`
(nanoseconds); machine floating-point damage values are modelled as exact
rationals; fallible operations return `Option`/`Except`.
-/

namespace WowSims

/-! ## Event scheduler

Modelled from the spec: the scheduler keeps a pending list min-ordered by
`(fireTime, insertionSequence)`; `schedule` inserts keeping the order, and
`runUntil` repeatedly pops the earliest event while its fire time does not
exceed the end time. -/

/-- A pending scheduler entry: its fire time and its insertion sequence
number (assigned in arrival order, used as the FIFO tiebreak). -/
@[ext]
structure ScheduledEvent where
  fireTime : Nat
  seq : Nat
  deriving DecidableEq, Repr

/-- The scheduler's ordering: earlier fire time first, and for equal fire
times the smaller insertion sequence first. -/
def evLe (a b : ScheduledEvent) : Prop :=
  a.fireTime < b.fireTime ∨ (a.fireTime = b.fireTime ∧ a.seq ≤ b.seq)

/-- Strict version of `evLe`: used to state that dispatch order is strictly
increasing in the `(fireTime, seq)` key. -/
def evLt (a b : ScheduledEvent) : Prop :=
  a.fireTime < b.fireTime ∨ (a.fireTime = b.fireTime ∧ a.seq < b.seq)

instance : DecidableRel evLe := fun a b => by
  unfold evLe; infer_instance

instance : DecidableRel evLt := fun a b => by
  unfold evLt; infer_instance

instance : IsTotal ScheduledEvent evLe where
  total a b := by
    rcases Nat.lt_trichotomy a.fireTime b.fireTime with h | h | h
    · exact Or.inl (Or.inl h)
    · rcases Nat.le_total a.seq b.seq with hs | hs
      · exact Or.inl (Or.inr ⟨h, hs⟩)
      · exact Or.inr (Or.inr ⟨h.symm, hs⟩)
    · exact Or.inr (Or.inl h)

instance : IsTrans ScheduledEvent evLe where
  trans a b c hab hbc := by
    rcases hab with h1 | ⟨e1, s1⟩
    · rcases hbc with h2 | ⟨e2, _⟩
      · exact Or.inl (h1.trans h2)
      · exact Or.inl (e2 ▸ h1)
    · rcases hbc with h2 | ⟨e2, s2⟩
      · exact Or.inl (e1 ▸ h2)
      · exact Or.inr ⟨e1.trans e2, s1.trans s2⟩

theorem evLe_antisymm {a b : ScheduledEvent} (hab : evLe a b) (hba : evLe b a) :
    a = b := by
  rcases hab with h1 | ⟨e1, s1⟩
  · rcases hba with h2 | ⟨e2, _⟩
    · exact absurd (h1.trans h2) (Nat.lt_irrefl _)
    · exact absurd h1 (by omega)
  · rcases hba with h2 | ⟨e2, s2⟩
    · exact absurd h2 (by omega)
    · exact ScheduledEvent.ext e1 (Nat.le_antisymm s1 s2)

theorem evLe_refl (a : ScheduledEvent) : evLe a a :=
  Or.inr ⟨rfl, Nat.le_refl _⟩

/-- `schedule`: insert one event into the pending list, keeping it
min-ordered by `(fireTime, seq)`. -/
def schedule (q : List ScheduledEvent) (e : ScheduledEvent) : List ScheduledEvent :=
  q.orderedInsert evLe e

/-- Perform a whole sequence of `schedule` calls: the `i`-th call (0-based,
counting from `i0`) schedules fire time `ts[i]` with insertion sequence
`i0 + i`. -/
def scheduleAll (ts : List Nat) (i0 : Nat) (q : List ScheduledEvent) :
    List ScheduledEvent :=
  match ts with
  | [] => q
  | t :: rest => scheduleAll rest (i0 + 1) (schedule q ⟨t, i0⟩)

/-- The events `⟨ts[0], i0⟩, ⟨ts[1], i0+1⟩, …` in arrival order. -/
def arrivalList (ts : List Nat) (i0 : Nat) : List ScheduledEvent :=
  match ts with
  | [] => []
  | t :: rest => ⟨t, i0⟩ :: arrivalList rest (i0 + 1)

/-- `runUntil`: pop the earliest pending event while its fire time does not
exceed `endTime`; the returned list is the dispatch order. -/
def runUntil (endTime : Nat) : List ScheduledEvent → List ScheduledEvent
  | [] => []
  | e :: rest => if e.fireTime ≤ endTime then e :: runUntil endTime rest else []

theorem scheduleAll_sorted (ts : List Nat) (i0 : Nat) (q : List ScheduledEvent)
    (hq : List.Sorted evLe q) : List.Sorted evLe (scheduleAll ts i0 q) := by
  induction ts generalizing i0 q with
  | nil => exact hq
  | cons t rest ih =>
    have hins : List.Sorted evLe (schedule q ⟨t, i0⟩) :=
      List.Sorted.orderedInsert _ q hq
    exact ih _ _ hins

theorem scheduleAll_perm (ts : List Nat) (i0 : Nat) (q : List ScheduledEvent) :
    (scheduleAll ts i0 q).Perm (q ++ arrivalList ts i0) := by
  induction ts generalizing i0 q with
  | nil => simp [scheduleAll, arrivalList]
  | cons t rest ih =>
    have h1 := ih (i0 + 1) (schedule q ⟨t, i0⟩)
    have h2 : (schedule q ⟨t, i0⟩).Perm (⟨t, i0⟩ :: q) :=
      List.perm_orderedInsert evLe _ q
    refine h1.trans ((h2.append_right _).trans ?_)
    exact (List.perm_middle).symm

theorem arrivalList_seq_ge (ts : List Nat) (i0 : Nat) :
    ∀ e ∈ arrivalList ts i0, i0 ≤ e.seq := by
  induction ts generalizing i0 with
  | nil => intro e he; simp [arrivalList] at he
  | cons t rest ih =>
    intro e he
    rcases (List.mem_cons).1 he with h | h
    · subst h; exact Nat.le_refl _
    · exact Nat.le_of_succ_le (ih (i0 + 1) e h)

theorem arrivalList_seq_pairwise (ts : List Nat) (i0 : Nat) :
    List.Pairwise (fun a b : ScheduledEvent => a.seq < b.seq)
      (arrivalList ts i0) := by
  induction ts generalizing i0 with
  | nil => exact List.Pairwise.nil
  | cons t rest ih =>
    refine List.Pairwise.cons ?_ (ih (i0 + 1))
    intro e he
    exact Nat.lt_of_lt_of_le (Nat.lt_succ_self i0) (arrivalList_seq_ge rest (i0 + 1) e he)

theorem scheduleAll_seq_ne (ts : List Nat) :
    List.Pairwise (fun a b : ScheduledEvent => a.seq ≠ b.seq)
      (scheduleAll ts 0 []) := by
  have hperm := scheduleAll_perm ts 0 []
  refine (hperm.pairwise_iff (fun h => Ne.symm h)).2 ?_
  simpa using (arrivalList_seq_pairwise ts 0).imp (fun h => Nat.ne_of_lt h)

theorem runUntil_sublist (endTime : Nat) (q : List ScheduledEvent) :
    (runUntil endTime q).Sublist q := by
  induction q with
  | nil => simp [runUntil]
  | cons e rest ih =>
    by_cases h : e.fireTime ≤ endTime
    · simpa [runUntil, h] using ih.cons₂ e
    · simp [runUntil, h]

theorem dispatch_pairwise_evLt (ts : List Nat) (endTime : Nat) :
    List.Pairwise evLt (runUntil endTime (scheduleAll ts 0 [])) := by
  have hsorted : List.Sorted evLe (scheduleAll ts 0 []) :=
    scheduleAll_sorted ts 0 [] List.sorted_nil
  have hne := scheduleAll_seq_ne ts
  have hcomb :
      List.Pairwise (fun a b : ScheduledEvent => evLe a b ∧ a.seq ≠ b.seq)
        (scheduleAll ts 0 []) := hsorted.and hne
  have hstrict : List.Pairwise evLt (scheduleAll ts 0 []) := by
    refine hcomb.imp ?_
    rintro a b ⟨hle, hne2⟩
    rcases hle with h | ⟨he, hs⟩
    · exact Or.inl h
    · exact Or.inr ⟨he, Nat.lt_of_le_of_ne hs hne2⟩
  exact hstrict.sublist (runUntil_sublist endTime _)

/-! ## Trial determinism

Modelled from the spec: a trial run is the scheduler repeatedly choosing and
dispatching a minimal pending event.  `RunRel q ds` says `ds` is a possible
complete dispatch sequence from the pending list `q`; any two such sequences
coincide, so per-trial metrics are a function of configuration and seed. -/

/-- One complete scheduler run: repeatedly pick some pending event that is
minimal in the `(fireTime, seq)` order, dispatch it, and remove it. -/
inductive RunRel : List ScheduledEvent → List ScheduledEvent → Prop where
  | nil : RunRel [] []
  | step {q : List ScheduledEvent} {e : ScheduledEvent} {ds : List ScheduledEvent} :
      e ∈ q → (∀ x ∈ q, evLe e x) → RunRel (q.erase e) ds → RunRel q (e :: ds)

theorem runRel_eq {q ds₁ ds₂ : List ScheduledEvent}
    (h₁ : RunRel q ds₁) (h₂ : RunRel q ds₂) : ds₁ = ds₂ := by
  induction h₁ generalizing ds₂ with
  | nil =>
    cases h₂ with
    | nil => rfl
    | step hm _ _ => exact absurd hm (List.not_mem_nil _)
  | step hm₁ hmin₁ _ ih =>
    cases h₂ with
    | nil => exact absurd hm₁ (List.not_mem_nil _)
    | step hm₂ hmin₂ hrest₂ =>
      have heq := evLe_antisymm (hmin₁ _ hm₂) (hmin₂ _ hm₁)
      subst heq
      exact congrArg _ (ih hrest₂)

/-- The per-trial pseudo-random stream (a 64-bit linear congruential
generator, reduced mod `2^64`), seeded once per trial. -/
def nextRand (s : Nat) : Nat :=
  (6364136223846793005 * s + 1442695040888963407) % (2 ^ 64)

/-- Per-trial accumulated totals. -/
structure TrialMetrics where
  totalDamage : Nat
  simulatedDuration : Nat
  deriving DecidableEq, Repr

/-- Fold a dispatch sequence into `TrialMetrics`, threading the seeded
random stream through every dispatched event. -/
def accumMetrics (rng : Nat) (dmg : Nat) (t : Nat) :
    List ScheduledEvent → TrialMetrics
  | [] => ⟨dmg, t⟩
  | e :: rest => accumMetrics (nextRand rng) (dmg + nextRand rng % 1000) (max t e.fireTime) rest

/-- The metrics of one trial, as a function of the seed and the dispatch
sequence the scheduler produced. -/
def runTrialMetrics (seed : Nat) (ds : List ScheduledEvent) : TrialMetrics :=
  accumMetrics seed 0 0 ds

/-! ## Chaos Bolt (the Destruction Warlock registration)

The spell's `ApplyEffects` closure, its `ExtraCastCondition`, and the
ignite (DoT) configuration it installs, embedded from the source.  Damage
values (Go `float64`) are modelled as exact rationals; Burning Ember
amounts (`int32`) as integers. -/

/-- The outcome of one resolved attempt: its final damage and whether it
landed. -/
structure SpellResult where
  damage : ℚ
  landed : Bool

/-- `core.TernaryInt32(destro.T15_2pc.IsActive(), 8, 10)`: the Burning
Ember amount Chaos Bolt spends — 8 with the T15 2-piece active, 10
otherwise. -/
def chaosBoltCost (t15_2pc : Bool) : Int :=
  if t15_2pc then 8 else 10

/-- Modelled from the spec: a Resource Pool's `CanSpend(amount)` — the
spendable quantity covers the amount (`core.SecondaryResourceBar` is not
among the staged files). -/
def canSpend (embers : Int) (amount : Int) : Bool :=
  decide (amount ≤ embers)

/-- `ExtraCastCondition` of the Chaos Bolt `SpellConfig`: the attempt is
legal only when the Burning Ember cost is affordable. -/
def chaosBoltExtraCastCondition (t15_2pc : Bool) (embers : Int) : Bool :=
  canSpend embers (chaosBoltCost t15_2pc)

/-- Everything one resolution of Chaos Bolt's `ApplyEffects` leaves behind:
the spell's `DamageMultiplier` after the resolution, the Burning Ember
count after it, whether `DealDamage` was scheduled (inside
`WaitTravelTime`), and the computed `SpellResult`. -/
structure ChaosBoltResolution where
  damageMultiplier : ℚ
  embers : Int
  dealDamageScheduled : Bool
  result : SpellResult

/-- The body of Chaos Bolt's `ApplyEffects` (src/unnamed/part_003, lines
59–77).  `calcDamage` stands for `spell.CalcDamage` applied to the rolled
base damage, the target and the hit-and-crit outcome table, as a function
of the spell's current `DamageMultiplier`; `havoc` is
`spell.Flags.Matches(SpellFlagDestructionHavoc)`. -/
def chaosBoltApplyEffects (spellCritPercent : ℚ) (havoc : Bool) (t15_2pc : Bool)
    (embers : Int) (damageMultiplier : ℚ) (calcDamage : ℚ → SpellResult) :
    ChaosBoltResolution :=
  let dmUp := damageMultiplier * (1 + spellCritPercent / 100)
  let result := calcDamage dmUp
  let dmDown := dmUp / (1 + spellCritPercent / 100)
  if havoc then
    -- Havoc Spell doesn't spend resources as it was a duplicate
    ⟨dmDown, embers, true, result⟩
  else if result.landed && canSpend embers (chaosBoltCost t15_2pc) then
    ⟨dmDown, embers - chaosBoltCost t15_2pc, true, result⟩
  else
    ⟨dmDown, embers, false, result⟩

/-- Modelled from the spec: the Action/Spell Executor's attempt phase for
Chaos Bolt (the executor itself, `core.Spell.Cast`, is not among the staged
files).  §4.2: preconditions are checked in order and declared costs are
deducted on success; Chaos Bolt's `SpellConfig` declares no resource cost
(its ember spend lives inside `ApplyEffects`), so a successful attempt
checks `ExtraCastCondition` and leaves the Burning Ember count unchanged;
resolution (`ApplyEffects`) is scheduled for cast completion.  Returns the
ember count after the attempt, or `none` when rejected. -/
def chaosBoltAttempt (t15_2pc : Bool) (embers : Int) : Option Int :=
  if chaosBoltExtraCastCondition t15_2pc embers then some embers else none

/-! ### The ignite (DoT) configuration installed by `registerChaosBolt` -/

/-- The proc callback kinds the trigger can subscribe to (the ones the
Chaos Bolt registration mentions). -/
inductive ProcCallback where
  | onSpellHitDealt
  | onPeriodicDamageDealt
  | other
  deriving DecidableEq, Repr

/-- The outcome filters the trigger can require. -/
inductive ProcOutcome where
  | landed
  | any
  deriving DecidableEq, Repr

/-- The class spell identities relevant here (`warlock.WarlockSpell*` bit
masks, represented abstractly). -/
inductive ClassSpell where
  | chaosBolt
  | incinerate
  | immolate
  | otherSpell
  deriving DecidableEq, Repr

/-- The `core.ProcTrigger` record of the ignite configuration. -/
structure ProcTrigger where
  name : String
  callback : ProcCallback
  classSpellMask : ClassSpell
  outcome : ProcOutcome
  requireDamageDealt : Bool

/-- The `shared.IgniteConfig` record (tick length in nanoseconds, the units
of Go `time.Duration`). -/
structure IgniteConfig where
  dotAuraLabel : String
  tickLength : Nat
  numberOfTicks : Nat
  procTrigger : ProcTrigger
  damageCalculator : ℚ → ℚ

/-- The ignite configuration `registerChaosBolt` passes to
`shared.RegisterIgniteEffect` (src/unnamed/part_003, lines 16–37). -/
def chaosBoltIgniteConfig : IgniteConfig where
  dotAuraLabel := "Chaos Bolt Dot"
  tickLength := 1000000000
  numberOfTicks := 3
  procTrigger :=
    { name := "Chaos Bolt - Trigger"
      callback := ProcCallback.onSpellHitDealt
      classSpellMask := ClassSpell.chaosBolt
      outcome := ProcOutcome.landed
      requireDamageDealt := true }
  damageCalculator := fun damage => damage * (15 / 100)

/-- A published combat event, as the trigger's filters see it. -/
structure ProcEvent where
  callback : ProcCallback
  spell : ClassSpell
  landed : Bool
  damage : ℚ

/-- Modelled from the spec: whether a `ProcTrigger` fires on a published
event (`core.ProcTrigger`'s dispatch is not among the staged files) — §4.3:
a subscriber runs when the event kind matches and every declared filter
(class-spell mask, outcome, damage-dealt requirement) passes. -/
def procTriggerFires (t : ProcTrigger) (ev : ProcEvent) : Bool :=
  decide (t.callback = ev.callback) &&
  decide (t.classSpellMask = ev.spell) &&
  (match t.outcome with
   | ProcOutcome.landed => ev.landed
   | ProcOutcome.any => true) &&
  (!t.requireDamageDealt || decide (0 < ev.damage))

/-- Modelled from the spec: the tick schedule of the installed DoT aura —
§4.2: the tick callback runs at fixed intervals, `numberOfTicks` times,
starting one interval after the aura is applied at `start`. -/
def igniteTickTimes (cfg : IgniteConfig) (start : Nat) : List Nat :=
  (List.range cfg.numberOfTicks).map (fun k => start + (k + 1) * cfg.tickLength)

/-! ## `APLValueRemainingCastTime` (src/unnamed/part_002)

The Go method reads `value.unit.Hardcast.Expires` and `sim.CurrentTime`
(both `time.Duration`, nanoseconds, the scheduler's clock unit — modelled
as `Int`) and returns `max(0, …)`.  `GetDuration` is embedded in
state-passing style — it returns the value together with the node, unit and
simulation states after the call — so that its freedom from mutation is a
statement about the embedded code rather than a convention. -/

/-- The actor's hardcast slot: the expiry time of the in-progress cast. -/
structure Hardcast where
  expires : Int
  deriving DecidableEq, Repr

/-- The part of a `core.Unit` that `APLValueRemainingCastTime` touches. -/
structure APLUnit where
  hardcast : Hardcast
  deriving DecidableEq, Repr

/-- The part of `core.Simulation` that `APLValueRemainingCastTime`
touches. -/
structure Simulation where
  currentTime : Int
  deriving DecidableEq, Repr

/-- The APL value node: it holds a reference to its unit. -/
structure APLValueRemainingCastTime where
  unit : APLUnit
  deriving DecidableEq, Repr

/-- `proto.APLValueType`: the declared result type of an APL value node. -/
inductive APLValueType where
  | valueTypeBool
  | valueTypeInt
  | valueTypeFloat
  | valueTypeDuration
  | valueTypeString
  deriving DecidableEq, Repr

/-- The node's `Type()` method: it declares a duration result. -/
def APLValueRemainingCastTime.typeOf (_ : APLValueRemainingCastTime) : APLValueType :=
  APLValueType.valueTypeDuration

/-- The node's `GetDuration(sim)` method, in state-passing style: the
returned triple is (the duration value, the node afterwards, the simulation
afterwards). -/
def APLValueRemainingCastTime.GetDuration (value : APLValueRemainingCastTime)
    (sim : Simulation) : Int × APLValueRemainingCastTime × Simulation :=
  (max 0 (value.unit.hardcast.expires - sim.currentTime), value, sim)

/-! ## `findAvailablePort` (src/unnamed/part_001)

The Electron launcher probes `CONFIG.maxPortTries` ports starting at
`CONFIG.preferredPort`, in increasing order, awaiting `isPortAvailable` for
each; `isPortAvailable` is the external collaborator, modelled as an
arbitrary boolean predicate on port numbers.  A throw is modelled as
`Except.error` carrying the thrown message. -/

/-- `CONFIG.preferredPort`. -/
def preferredPort : Nat := 3333

/-- `CONFIG.maxPortTries` ("Try ports 3333-3342"). -/
def maxPortTries : Nat := 10

/-- The loop of `findAvailablePort`: `fuel` tries remain and `port` is the
next port to probe; when the tries are exhausted the range-naming error is
thrown. -/
def probePorts (avail : Nat → Bool) (port : Nat) : Nat → Except String Nat
  | 0 => Except.error ("No available ports found in range " ++
      toString preferredPort ++ "-" ++ toString (preferredPort + maxPortTries - 1))
  | fuel + 1 =>
    if avail port then Except.ok port else probePorts avail (port + 1) fuel

/-- `findAvailablePort`, parametrised by the `isPortAvailable` oracle. -/
def findAvailablePort (avail : Nat → Bool) : Except String Nat :=
  probePorts avail preferredPort maxPortTries

/-! ## `checkSingleInstance` (src/sim/web/windows.go, windows_stub.go)

The Windows build runs `tasklist /FI "IMAGENAME eq wowsimmop-windows.exe"
/FO CSV /NH`, so every data row of the output is a
`wowsimmop-windows.exe` entry; the command's result is modelled as
`Option String` (`none` for a failed command).  The CSV parsing — trim,
split on newlines, split each line on commas, strip quotes from the PID
field, `strconv.Atoi` — is embedded below. -/

/-- The double-quote character (Go's `"\""` cutset). -/
def quoteChar : Char := Char.ofNat 34

/-- The characters Go's `unicode.IsSpace` accepts within ASCII (tab,
newline, vertical tab, form feed, carriage return, space): what
`strings.TrimSpace` strips from `tasklist`'s output. -/
def isSpaceChar (c : Char) : Bool :=
  decide (c = Char.ofNat 32) || decide (c = Char.ofNat 9) ||
  decide (c = Char.ofNat 10) || decide (c = Char.ofNat 11) ||
  decide (c = Char.ofNat 12) || decide (c = Char.ofNat 13)

/-- `strings.TrimSpace`, on the character list of a string. -/
def trimChars (cs : List Char) : List Char :=
  ((cs.dropWhile isSpaceChar).reverse.dropWhile isSpaceChar).reverse

/-- `strings.Split(cs, sep)` for a one-character separator, on character
lists: the list of fields between occurrences of `sep`. -/
def splitOnChar (sep : Char) : List Char → List (List Char)
  | [] => [[]]
  | c :: rest =>
    let r := splitOnChar sep rest
    if c = sep then [] :: r else (c :: r.headD []) :: r.tail

/-- `strconv.Atoi`'s digit loop: all remaining characters must be decimal
digits. -/
def atoiDigits (acc : Nat) : List Char → Option Nat
  | [] => some acc
  | c :: rest =>
    if c.isDigit then atoiDigits (acc * 10 + (c.toNat - 48)) rest else none

/-- Go's `strconv.Atoi` on a 64-bit platform: an optional sign, then a
non-empty run of decimal digits, rejecting anything else and values outside
the `int64` range (a range error makes `err != nil`, which the caller
treats the same as a parse failure). -/
def goAtoi (cs : List Char) : Option Int :=
  match cs with
  | [] => none
  | c :: rest =>
    let signed : Bool × List Char :=
      if c = Char.ofNat 43 then (false, rest)
      else if c = Char.ofNat 45 then (true, rest)
      else (false, c :: rest)
    match signed.2 with
    | [] => none
    | _ =>
      match atoiDigits 0 signed.2 with
      | none => none
      | some n =>
        let v : Int := if signed.1 then -(n : Int) else (n : Int)
        if v < -(2 ^ 63) ∨ 2 ^ 63 - 1 < v then none else some v

/-- Go's `strings.Trim(s, "\"")`: strip leading and trailing double
quotes. -/
def trimQuotes (cs : List Char) : List Char :=
  ((cs.dropWhile (fun c => c = quoteChar)).reverse.dropWhile
    (fun c => c = quoteChar)).reverse

/-- `strings.Split(strings.TrimSpace(output), "\n")`. -/
def tasklistLines (output : String) : List (List Char) :=
  splitOnChar (Char.ofNat 10) (trimChars output.toList)

/-- One iteration of the counting loop of `checkSingleInstance`: whether
this CSV line counts as a running instance other than the current
process. -/
def lineIsOtherInstance (line : List Char) (currentPID : Int) : Bool :=
  if trimChars line = [] then false
  else
    let fields := splitOnChar (Char.ofNat 44) line
    if 2 ≤ fields.length then
      match goAtoi (trimQuotes (fields.getD 1 [])) with
      | some pid => decide (pid ≠ currentPID)
      | none => false
    else false

/-- `checkSingleInstance` of the Windows build: `tasklistOutput` is the
result of the `tasklist` query (`none` when the command failed). -/
def checkSingleInstance (tasklistOutput : Option String) (currentPID : Int) : Bool :=
  match tasklistOutput with
  | none => true
  | some output =>
    let runningInstances :=
      (tasklistLines output).countP (fun line => lineIsOtherInstance line currentPID)
    if 0 < runningInstances then false else true

/-- `checkSingleInstance` of the non-Windows stub: always `true` (no
single-instance check). -/
def checkSingleInstanceStub : Bool := true

/-! ## The claims -/

/-- C1, counterexample: the claim says Chaos Bolt's Burning Ember cost is
deducted when the attempt succeeds.  At 10 embers without the T15 2-piece
(cost 10), the attempt succeeds yet leaves the embers at 10 — not at
`10 - cost = 0` as the claim requires; the deduction only happens at
resolution, inside `ApplyEffects`. -/
theorem chaosBolt_attempt_no_deduction_cex :
    chaosBoltAttempt false 10 = some 10 ∧
    chaosBoltAttempt false 10 ≠ some (10 - chaosBoltCost false) ∧
    (chaosBoltApplyEffects 0 false false 10 1
        (fun _ => ⟨100, true⟩)).embers = 10 - chaosBoltCost false := by
  refine ⟨rfl, ?_, rfl⟩
  intro h
  simp [chaosBoltAttempt, chaosBoltExtraCastCondition, canSpend, chaosBoltCost] at h

/-- C1, amended: Chaos Bolt's `SpellConfig` declares no resource cost, so a
successful attempt leaves the Burning Ember count unchanged (the attempt
only checks affordability through `ExtraCastCondition`); the 8/10 ember
cost is deducted at resolution, inside `ApplyEffects`, when the bolt landed
and the cost is still affordable. -/
theorem chaosBolt_cost_deducted_at_resolution (t15_2pc : Bool) (embers : Int)
    (crit dm : ℚ) (calcDamage : ℚ → SpellResult)
    (hlanded : (calcDamage (dm * (1 + crit / 100))).landed = true)
    (hafford : canSpend embers (chaosBoltCost t15_2pc) = true) :
    (∀ e₂, chaosBoltAttempt t15_2pc embers = some e₂ → e₂ = embers) ∧
    (chaosBoltApplyEffects crit false t15_2pc embers dm calcDamage).embers
      = embers - chaosBoltCost t15_2pc := by
  constructor
  · intro e₂ h
    unfold chaosBoltAttempt at h
    by_cases hc : chaosBoltExtraCastCondition t15_2pc embers
    · rw [if_pos hc] at h
      exact (Option.some.injEq _ _ ▸ h).symm
    · rw [if_neg hc] at h
      exact absurd h (Option.some_ne_none e₂).symm
  · unfold chaosBoltApplyEffects
    simp only [Bool.false_eq_true, if_false, hlanded, hafford, Bool.and_self, if_true]

/-- C1, witness for the amended theorem at 10 embers, no T15 2-piece, a
landed bolt: the resolution deducts the 10-ember cost. -/
theorem chaosBolt_cost_deducted_at_resolution_witness :
    (chaosBoltApplyEffects 0 false false 10 1
        (fun _ => ⟨100, true⟩)).embers = 10 - chaosBoltCost false :=
  (chaosBolt_cost_deducted_at_resolution false 10 0 1 (fun _ => ⟨100, true⟩) rfl rfl).2

/-- C2, counterexample: a Chaos Bolt with the Destruction Havoc flag whose
bolt did not land spends no embers (as the claim says) but still schedules
`DealDamage` — the claim's "DealDamage is never scheduled" fails on the
Havoc branch. -/
theorem chaosBolt_havoc_cex :
    (chaosBoltApplyEffects 0 true false 10 1
        (fun _ => ⟨100, false⟩)).result.landed = false ∧
    (chaosBoltApplyEffects 0 true false 10 1
        (fun _ => ⟨100, false⟩)).embers = 10 ∧
    (chaosBoltApplyEffects 0 true false 10 1
        (fun _ => ⟨100, false⟩)).dealDamageScheduled = true :=
  ⟨rfl, rfl, rfl⟩

/-- C2, amended: for a Chaos Bolt without the Destruction Havoc flag, if at
resolution the bolt did not land or the Burning Ember cost is not
affordable, then no embers are spent and `DealDamage` is never scheduled (a
Havoc duplicate spends nothing but does schedule `DealDamage`). -/
theorem chaosBolt_rejected_resolution_no_spend (crit dm : ℚ) (t15_2pc : Bool)
    (embers : Int) (calcDamage : ℚ → SpellResult)
    (hrej : (calcDamage (dm * (1 + crit / 100))).landed = false ∨
            canSpend embers (chaosBoltCost t15_2pc) = false) :
    (chaosBoltApplyEffects crit false t15_2pc embers dm calcDamage).embers = embers ∧
    (chaosBoltApplyEffects crit false t15_2pc embers dm calcDamage).dealDamageScheduled
      = false := by
  rcases hrej with h | h <;> simp [chaosBoltApplyEffects, h]

/-- C2, witness for the amended theorem: at 4 embers (cost 10
unaffordable), a landed non-Havoc bolt spends nothing and schedules no
damage. -/
theorem chaosBolt_rejected_resolution_no_spend_witness :
    (chaosBoltApplyEffects 0 false false 4 1
        (fun _ => ⟨100, true⟩)).embers = 4 ∧
    (chaosBoltApplyEffects 0 false false 4 1
        (fun _ => ⟨100, true⟩)).dealDamageScheduled = false :=
  chaosBolt_rejected_resolution_no_spend 0 1 false 4 (fun _ => ⟨100, true⟩) (Or.inr rfl)

/-- C3: `registerChaosBolt` installs a DoT whose aura ticks every second
(`10^9` ns) for exactly 3 ticks, each tick dealing 15% of the triggering
hit's damage, and whose trigger fires only for a landed, damage-dealing
Chaos Bolt spell hit. -/
theorem chaosBolt_ignite_spec (damage : ℚ) (start : Nat) (ev : ProcEvent) :
    chaosBoltIgniteConfig.tickLength = 1000000000 ∧
    chaosBoltIgniteConfig.numberOfTicks = 3 ∧
    igniteTickTimes chaosBoltIgniteConfig start =
      [start + 1000000000, start + 2000000000, start + 3000000000] ∧
    chaosBoltIgniteConfig.damageCalculator damage = damage * (15 / 100) ∧
    (procTriggerFires chaosBoltIgniteConfig.procTrigger ev = true ↔
      ev.callback = ProcCallback.onSpellHitDealt ∧
      ev.spell = ClassSpell.chaosBolt ∧ ev.landed = true ∧ 0 < ev.damage) := by
  refine ⟨rfl, rfl, ?_, rfl, ?_⟩
  · show (List.range 3).map _ = _
    rw [List.range_succ, List.range_succ, List.range_succ, List.range_zero]
    simp [chaosBoltIgniteConfig]
  · simp only [procTriggerFires, chaosBoltIgniteConfig, Bool.and_eq_true,
      decide_eq_true_eq, Bool.not_true, Bool.false_or]
    constructor
    · rintro ⟨⟨⟨hcb, hsp⟩, hl⟩, hd⟩
      exact ⟨hcb.symm, hsp.symm, hl, hd⟩
    · rintro ⟨hcb, hsp, hl, hd⟩
      exact ⟨⟨⟨hcb.symm, hsp.symm⟩, hl⟩, hd⟩

/-- C4: one resolution of Chaos Bolt's `ApplyEffects` leaves the spell's
`DamageMultiplier` unchanged: it is multiplied by
`1 + SpellCritPercent/100` before the damage calculation and divided by the
same factor afterwards (exact rational arithmetic; the crit percentage is
nonnegative, so the factor is nonzero). -/
theorem chaosBolt_damageMultiplier_restored (crit dm : ℚ) (havoc t15_2pc : Bool)
    (embers : Int) (calcDamage : ℚ → SpellResult) (hcrit : 0 ≤ crit) :
    (chaosBoltApplyEffects crit havoc t15_2pc embers dm calcDamage).damageMultiplier
      = dm := by
  have hf : (1 + crit / 100 : ℚ) ≠ 0 := by positivity
  simp only [chaosBoltApplyEffects]
  split_ifs <;> exact mul_div_cancel_right₀ dm hf

/-- C4, witness: with a 5% crit chance and multiplier 1, the multiplier is
1 again after the resolution. -/
theorem chaosBolt_damageMultiplier_restored_witness :
    (chaosBoltApplyEffects 5 false false 10 1
        (fun _ => ⟨100, true⟩)).damageMultiplier = 1 :=
  chaosBolt_damageMultiplier_restored 5 1 false false 10 (fun _ => ⟨100, true⟩)
    (by norm_num)

/-- C5: for any sequence of `schedule` calls, `runUntil` dispatches events
pairwise in strictly increasing `(fireTime, insertion sequence)` order — so
distinct fire times come in strictly increasing time order, equal fire
times in insertion (FIFO) order — and fire times never decrease along the
dispatch sequence. -/
theorem runUntil_dispatch_order (ts : List Nat) (endTime : Nat) :
    List.Pairwise evLt (runUntil endTime (scheduleAll ts 0 [])) ∧
    List.Pairwise (fun a b : ScheduledEvent => a.fireTime ≤ b.fireTime)
      (runUntil endTime (scheduleAll ts 0 [])) := by
  have h := dispatch_pairwise_evLt ts endTime
  refine ⟨h, h.imp ?_⟩
  rintro a b (h1 | ⟨h1, _⟩)
  · exact Nat.le_of_lt h1
  · exact Nat.le_of_eq h1

/-- C6: a trial is deterministic — any two complete scheduler runs from the
same pending configuration produce the same dispatch sequence, so the
per-trial metrics are a function of the configuration and the seed alone. -/
theorem trial_deterministic (q : List ScheduledEvent) (seed : Nat)
    (ds₁ ds₂ : List ScheduledEvent) (h₁ : RunRel q ds₁) (h₂ : RunRel q ds₂) :
    runTrialMetrics seed ds₁ = runTrialMetrics seed ds₂ :=
  congrArg (runTrialMetrics seed) (runRel_eq h₁ h₂)

/-- C6, witness: a one-event trial run twice from the same configuration
and seed yields the same metrics. -/
theorem trial_deterministic_witness :
    runTrialMetrics 42 [⟨5, 0⟩] = runTrialMetrics 42 [⟨5, 0⟩] := by
  have hrun : RunRel [⟨5, 0⟩] [⟨5, 0⟩] := by
    refine RunRel.step (List.mem_singleton.mpr rfl) ?_ ?_
    · intro x hx
      rw [List.mem_singleton] at hx
      subst hx
      exact evLe_refl _
    · rw [List.erase_cons_head]
      exact RunRel.nil
  exact trial_deterministic [⟨5, 0⟩] 42 [⟨5, 0⟩] [⟨5, 0⟩] hrun hrun

/-- C7: evaluating `APLValueRemainingCastTime` mutates nothing — the call
returns the node and the simulation unchanged — its declared `Type()` is
duration, and its value is computed from the hardcast expiry and the
scheduler clock in the clock's own units. -/
theorem aplValueRemainingCastTime_pure (value : APLValueRemainingCastTime)
    (sim : Simulation) :
    (value.GetDuration sim).2.1 = value ∧
    (value.GetDuration sim).2.2 = sim ∧
    value.typeOf = APLValueType.valueTypeDuration ∧
    (value.GetDuration sim).1 = max 0 (value.unit.hardcast.expires - sim.currentTime) :=
  ⟨rfl, rfl, rfl, rfl⟩

/-- C8: `GetDuration` returns `max 0 (Hardcast.Expires - sim.CurrentTime)`:
never negative, and exactly 0 whenever the expiry is at or before the
current time. -/
theorem aplValueRemainingCastTime_getDuration_clamped
    (value : APLValueRemainingCastTime) (sim : Simulation) :
    (value.GetDuration sim).1
      = max 0 (value.unit.hardcast.expires - sim.currentTime) ∧
    0 ≤ (value.GetDuration sim).1 ∧
    (value.unit.hardcast.expires ≤ sim.currentTime →
      (value.GetDuration sim).1 = 0) := by
  refine ⟨rfl, le_max_left 0 _, fun h => ?_⟩
  show max 0 (value.unit.hardcast.expires - sim.currentTime) = 0
  omega

theorem probePorts_ok (avail : Nat → Bool) :
    ∀ fuel port p, probePorts avail port fuel = Except.ok p →
      port ≤ p ∧ p < port + fuel ∧ avail p = true ∧
      ∀ q, port ≤ q → q < p → avail q = false := by
  intro fuel
  induction fuel with
  | zero => intro port p h; exact absurd h (by simp [probePorts])
  | succ n ih =>
    intro port p h
    by_cases ha : avail port = true
    · rw [probePorts, if_pos ha] at h
      obtain rfl : port = p := by simpa using h
      exact ⟨Nat.le_refl _, by omega, ha, fun q h1 h2 => absurd h2 (by omega)⟩
    · rw [probePorts, if_neg ha] at h
      obtain ⟨h1, h2, h3, h4⟩ := ih (port + 1) p h
      refine ⟨by omega, by omega, h3, ?_⟩
      intro q hq1 hq2
      rcases Nat.eq_or_lt_of_le hq1 with rfl | hlt
      · exact Bool.not_eq_true _ ▸ ha
      · exact h4 q (by omega) hq2

theorem probePorts_exhausted (avail : Nat → Bool) :
    ∀ fuel port, (∀ q, port ≤ q → q < port + fuel → avail q = false) →
      probePorts avail port fuel =
        Except.error ("No available ports found in range " ++
          toString preferredPort ++ "-" ++
          toString (preferredPort + maxPortTries - 1)) := by
  intro fuel
  induction fuel with
  | zero => intro port _; rfl
  | succ n ih =>
    intro port hall
    have ha : avail port = false := hall port (Nat.le_refl _) (by omega)
    rw [probePorts, if_neg (by simp [ha])]
    exact ih (port + 1) (fun q h1 h2 => hall q (by omega) (by omega))

/-- C9: `findAvailablePort` probes ports 3333–3342 in increasing order and
returns the first one `isPortAvailable` accepts; a returned port is always
in that range, and when all 10 ports are occupied it throws an error naming
the exhausted range. -/
theorem findAvailablePort_spec (avail : Nat → Bool) :
    (∀ p, findAvailablePort avail = Except.ok p →
      3333 ≤ p ∧ p ≤ 3342 ∧ avail p = true ∧
      ∀ q, 3333 ≤ q → q < p → avail q = false) ∧
    ((∀ p, 3333 ≤ p → p ≤ 3342 → avail p = false) →
      findAvailablePort avail =
        Except.error "No available ports found in range 3333-3342") := by
  constructor
  · intro p h
    obtain ⟨h1, h2, h3, h4⟩ := probePorts_ok avail maxPortTries preferredPort p h
    simp only [preferredPort, maxPortTries] at h1 h2 h4
    exact ⟨h1, by omega, h3, h4⟩
  · intro hall
    refine probePorts_exhausted avail maxPortTries preferredPort ?_
    intro q h1 h2
    simp only [preferredPort, maxPortTries] at h1 h2
    exact hall q h1 (by omega)

/-- C10: the Windows `checkSingleInstance` returns `false` exactly when the
`tasklist` query succeeded and its (IMAGENAME-filtered) output has at least
one data row whose PID field parses to an integer different from the
current process's PID; a failed `tasklist` yields `true`, and the
non-Windows stub is always `true`. -/
theorem checkSingleInstance_spec (output : String) (currentPID : Int) :
    checkSingleInstance none currentPID = true ∧
    (checkSingleInstance (some output) currentPID = false ↔
      ∃ line ∈ tasklistLines output, lineIsOtherInstance line currentPID = true) ∧
    checkSingleInstanceStub = true := by
  refine ⟨rfl, ?_, rfl⟩
  show (if 0 < (tasklistLines output).countP
      (fun line => lineIsOtherInstance line currentPID) then false else true) = false ↔ _
  rw [← List.countP_pos_iff]
  by_cases hc : 0 < (tasklistLines output).countP
      (fun line => lineIsOtherInstance line currentPID)
  · simp [hc]
  · simp [hc]

end WowSims
